import Mathlib

/-!
Verification of the csv2mysql loader (`SQL_Scripts/csv2mysql/csv2mysql.py`).

The Python source is shallowly embedded below.  Strings are Lean `String`s
(lists of characters); machine behaviour that can raise (IndexError on
`header[col_i]`, NameError on an unassigned `header`) is modelled with
`Except String`.  The database driver is modelled as an event trace: each
`cursor.execute` / `db.commit` call performed by `main` becomes one
`DbEvent` in a list, in call order.

Modelling notes for Python built-ins (used only through `get_type`):
* `int(s)`   — optional single leading sign followed by one or more ASCII
  digits (Python's tolerance for surrounding whitespace and `_` separators
  is not modelled; no claim depends on it).
* `float(s)` — optional sign, then digits with an optional point and
  optional exponent, or `inf` / `infinity` / `nan` (case-insensitive).
* `time.strptime(s, fmt)` for the four formats in the source — the string
  is split on the literal separators; each numeric field is 1–2 digits
  (1–4 for `%Y`, 1–6 for `%f`) and range-checked the way `strptime`
  checks them (month 1–12, day 1–31, hour 0–23, minute 0–59, second 0–61).
* `s.lower()` and `\W` of `re` are modelled on ASCII alphanumerics.
-/

namespace Csv2Mysql

/-- Numeric value of a list of ASCII digits, most significant first. -/
def digitsVal (l : List Char) : Nat :=
  l.foldl (fun a c => 10 * a + (c.toNat - 48)) 0

/-- Model of Python `int(s)`: optional sign, then one or more digits. -/
def pyInt (s : String) : Option Int :=
  match s.data with
  | [] => none
  | '+' :: rest =>
    if rest ≠ [] ∧ rest.all Char.isDigit then some ((digitsVal rest : Nat) : Int) else none
  | '-' :: rest =>
    if rest ≠ [] ∧ rest.all Char.isDigit then some (-((digitsVal rest : Nat) : Int)) else none
  | l => if l.all Char.isDigit then some ((digitsVal l : Nat) : Int) else none

/-- Drop one leading sign character, as Python numeric parsing does. -/
def stripSign : List Char → List Char
  | '+' :: r => r
  | '-' :: r => r
  | r => r

/-- Split at the first `e` (input is already lower-cased): mantissa and
optional exponent part. -/
def splitFirstE (l : List Char) : List Char × Option (List Char) :=
  match l.span (fun c => c != 'e') with
  | (a, []) => (a, none)
  | (a, _ :: b) => (a, some b)

/-- Mantissa of a float literal: `digits`, `digits.digits*` or `.digits`. -/
def isMantissa (l : List Char) : Bool :=
  match l.span Char.isDigit with
  | (ds, []) => !ds.isEmpty
  | (ds, '.' :: rest) => (!ds.isEmpty || !rest.isEmpty) && rest.all Char.isDigit
  | _ => false

/-- Exponent of a float literal: optional sign, then one or more digits. -/
def expDigits (l : List Char) : Bool :=
  let d := stripSign l
  !d.isEmpty && d.all Char.isDigit

/-- Model of Python `float(s)` success (the parsed value is unused). -/
def pyFloat (s : String) : Bool :=
  let body := stripSign (s.data.map Char.toLower)
  if body = "inf".data ∨ body = "infinity".data ∨ body = "nan".data then true
  else
    match splitFirstE body with
    | (m, none) => isMantissa m
    | (m, some e) => isMantissa m && expDigits e

/-- Split a character list on a separator character (like `str.split(sep)`):
`n` separators yield `n + 1` groups, empty groups included. -/
def splitOnChar (c : Char) : List Char → List (List Char)
  | [] => [[]]
  | x :: xs =>
    if x = c then [] :: splitOnChar c xs
    else
      match splitOnChar c xs with
      | [] => [[x]]
      | g :: gs => (x :: g) :: gs

/-- One numeric `strptime` field: non-empty, at most `maxLen` digits,
value between `lo` and `hi`. -/
def fieldNum (l : List Char) (maxLen lo hi : Nat) : Bool :=
  !l.isEmpty && decide (l.length ≤ maxLen) && l.all Char.isDigit &&
    decide (lo ≤ digitsVal l) && decide (digitsVal l ≤ hi)

/-- Full-string match of `%Y-%m-%d`. -/
def matchFmtDate (l : List Char) : Bool :=
  match splitOnChar '-' l with
  | [y, mo, d] => fieldNum y 4 0 9999 && fieldNum mo 2 1 12 && fieldNum d 2 1 31
  | _ => false

/-- Full-string match of `%H:%M:%S`. -/
def matchFmtTime (l : List Char) : Bool :=
  match splitOnChar ':' l with
  | [h, mi, se] => fieldNum h 2 0 23 && fieldNum mi 2 0 59 && fieldNum se 2 0 61
  | _ => false

/-- Full-string match of `%Y-%m-%d %H:%M:%S`. -/
def matchFmtDatetime (l : List Char) : Bool :=
  match splitOnChar ' ' l with
  | [d, t] => matchFmtDate d && matchFmtTime t
  | _ => false

/-- Full-string match of `%Y-%m-%d %H:%M:%S.%f`. -/
def matchFmtDatetimeFrac (l : List Char) : Bool :=
  match splitOnChar ' ' l with
  | [d, t] =>
    match splitOnChar '.' t with
    | [hms, frac] => matchFmtDate d && matchFmtTime hms && fieldNum frac 6 0 999999
    | _ => false
  | _ => false

/-- `get_type` from the source: classify one cell string.  Integer test
first (with the 2147483647 threshold), then float, then the four
timestamp formats in source order, then length vs 255. -/
def get_type (s : String) : String :=
  match pyInt s with
  | some v => if 2147483647 < v.natAbs then "bigint" else "int"
  | none =>
    if pyFloat s then "double"
    else if matchFmtDatetime s.data then "datetime"
    else if matchFmtDatetimeFrac s.data then "datetime"
    else if matchFmtDate s.data then "date"
    else if matchFmtTime s.data then "time"
    else if 255 < s.length then "text"
    else "varchar(255)"

/-- Python `max(l, key=l.count)` on a non-empty list: scan left to right,
replace the current best only on a strictly larger count. -/
def maxByCount (l : List String) : String :=
  match l with
  | [] => "varchar(255)"
  | x :: xs => xs.foldl (fun best y => if l.count best < l.count y then y else best) x

/-- `most_common` from the source: `text` and `bigint` trump everything,
otherwise the mode of the list; empty list gives the default. -/
def most_common (l : List String) : String :=
  match l with
  | [] => "varchar(255)"
  | _ :: _ =>
    if "text" ∈ l then "text"
    else if "bigint" ∈ l then "bigint"
    else maxByCount l

/-- The `csv_types` defaultdict(list): association list from raw header
name to the observed-type list, insertion-ordered. -/
abbrev TypesDict := List (String × List String)

def emptyDict : TypesDict := []

/-- `csv_types[k]` read (defaultdict: missing key reads as `[]`). -/
def dictGet : TypesDict → String → List String
  | [], _ => []
  | (k2, ts) :: rest, k => if k2 = k then ts else dictGet rest k

/-- `csv_types[k].append(t)`. -/
def dictApp : TypesDict → String → String → TypesDict
  | [], k, t => [(k, [t])]
  | (k2, ts) :: rest, k, t =>
    if k2 = k then (k2, ts ++ [t]) :: rest
    else (k2, ts) :: dictApp rest k t

/-- Sequence of appends. -/
def dictAppList (d : TypesDict) (ps : List (String × String)) : TypesDict :=
  ps.foldl (fun d p => dictApp d p.1 p.2) d

/-- The inner loop of `get_col_types` over one data row:
`for col_i, s in enumerate(row): csv_types[header[col_i]].append(get_type(s))`.
`header[col_i]` raises IndexError when the row is longer than the header. -/
def classifyCells (header : List String) : TypesDict → Nat → List String → Except String TypesDict
  | d, _, [] => Except.ok d
  | d, i, s :: rest =>
    match header[i]? with
    | some h => classifyCells header (dictApp d h (get_type s)) (i + 1) rest
    | none => Except.error "IndexError: list index out of range"

/-- The row loop of `get_col_types` over the sampled data rows. -/
def foldClassify (header : List String) : TypesDict → List (List String) → Except String TypesDict
  | d, [] => Except.ok d
  | d, row :: rest =>
    match classifyCells header d 0 row with
    | Except.ok d2 => foldClassify header d2 rest
    | Except.error e => Except.error e

/-- `get_col_types` on the sampled record list.  An empty file leaves the
`header` variable unassigned, so the final comprehension raises NameError. -/
def colTypesOf : List (List String) → Except String (List String)
  | [] => Except.error "NameError: header is not defined"
  | header :: dataRows =>
    (foldClassify header emptyDict dataRows).map
      (fun d => header.map (fun col => most_common (dictGet d col)))

/-- `get_col_types(input_file, max_rows)`: rows 0..max_rows inclusive are
read (the loop breaks after processing row index `max_rows`); row 0 is the
header, the rest are classified per raw header name. -/
def get_col_types (max_rows : Nat) (rows : List (List String)) : Except String (List String) :=
  colTypesOf (rows.take (max_rows + 1))

/-- `re.sub` word character (ASCII model): alphanumeric or underscore. -/
def isWordChar (c : Char) : Bool := c.isAlphanum || c == '_'

/-- `re.sub('\W+', '_', ·)`: each maximal run of non-word characters
becomes a single underscore.  The flag records whether the previous
character was part of a non-word run. -/
def collapseNonWord : Bool → List Char → List Char
  | _, [] => []
  | prevNon, c :: cs =>
    if isWordChar c then c :: collapseNonWord false cs
    else if prevNon then collapseNonWord true cs
    else '_' :: collapseNonWord true cs

/-- `.strip('_')`: drop leading and trailing underscores. -/
def stripUnderscoreChars (l : List Char) : List Char :=
  ((l.dropWhile (fun c => c == '_')).reverse.dropWhile (fun c => c == '_')).reverse

/-- `safe_col` from `format_header`:
`re.sub('\W+', '_', s.lower()).strip('_')`. -/
def safe_col (s : String) : String :=
  String.mk (stripUnderscoreChars (collapseNonWord false (s.data.map Char.toLower)))

/-- The `counts` defaultdict(int) of `format_header`. -/
abbrev CountDict := List (String × Nat)

def cntGet : CountDict → String → Nat
  | [], _ => 0
  | (k, n) :: rest, q => if k = q then n else cntGet rest q

def cntInc : CountDict → String → CountDict
  | [], q => [(q, 1)]
  | (k, n) :: rest, q => if k = q then (k, n + 1) :: rest else (k, n) :: cntInc rest q

/-- Body of `format_header`: sanitize, bump the occurrence count, suffix
the count on repeats, wrap in backticks. -/
def format_header_go (counts : CountDict) : List String → List String
  | [] => []
  | col :: rest =>
    let c := safe_col col
    let counts2 := cntInc counts c
    let n := cntGet counts2 c
    let c2 := if 1 < n then c ++ toString n else c
    ("`" ++ c2 ++ "`") :: format_header_go counts2 rest

/-- `format_header(row)` from the source. -/
def format_header (row : List String) : List String := format_header_go [] row

/-- `get_insert(table, header)` from the source. -/
def get_insert (table : String) (header : List String) : String :=
  "INSERT INTO `" ++ table ++ "` (" ++ String.intercalate ", " header ++
    ") VALUES (" ++ String.intercalate ", " (header.map (fun _ => "%s")) ++ ");"

/-- `get_schema(table, header, col_types)` from the source: fold over the
zipped columns, appending a clause for every column not literally named
`id`, then the constant tail. -/
def get_schema (table : String) (header col_types : List String) : String :=
  ((header.zip col_types).foldl
      (fun acc p => if p.1 ≠ "id" then acc ++ ("\n" ++ p.1 ++ " " ++ p.2 ++ ",") else acc)
      ("CREATE TABLE IF NOT EXISTS `" ++ table ++ "` (\n\n        "))
    ++ "\nPRIMARY KEY (id)\n        ) DEFAULT CHARSET=utf8;"

/-- The constant prefix of the generated CREATE TABLE statement. -/
def schemaPre (table : String) : String :=
  "CREATE TABLE IF NOT EXISTS `" ++ table ++ "` (\n\n        "

/-- The constant tail of the generated CREATE TABLE statement. -/
def schemaSuf : String := "\nPRIMARY KEY (id)\n        ) DEFAULT CHARSET=utf8;"

/-- One `column_name TYPE,` clause. -/
def colClause (p : String × String) : String := "\n" ++ p.1 ++ " " ++ p.2 ++ ","

/-- The clause block of the schema: one clause per zipped column, in
order, skipping a column literally named `id`. -/
def clausesFor : List (String × String) → String
  | [] => ""
  | p :: rest => (if p.1 ≠ "id" then colClause p else "") ++ clausesFor rest

/-- The `while len(row) < len(header): row.append('')` padding loop. -/
def padRow (row : List String) (hlen : Nat) : List String :=
  if _h : row.length < hlen then padRow (row ++ [""]) hlen else row
termination_by hlen - row.length
decreasing_by simp [List.length_append]; omega

/-- One Database Gateway call made by `main`, in call order. -/
inductive DbEvent where
  | createDatabase (sql : String)
  | selectDb (name : String)
  | dropTable (sql : String)
  | createTable (sql : String)
  | createIndex (sql : String)
  | insert (sql : String) (rowIndex : Nat) (vals : List String)
  | commit
deriving DecidableEq

/-- The three DDL calls issued when the header row is consumed. -/
def headerEvents (table : String) (ct : List String) (row : List String) : List DbEvent :=
  DbEvent.dropTable ("DROP TABLE IF EXISTS `" ++ table ++ "`;") ::
    DbEvent.createTable (get_schema table (format_header row) ct) ::
      DbEvent.createIndex ("CREATE INDEX ids ON `" ++ table ++ "` (id);") :: []

/-- The `for i, row in enumerate(csv.reader(...))` loop of `main`.
`header` starts as Python `None`; a header equal to `[]` is falsy, so it
is re-assigned on the next row exactly as in the source. -/
def mainLoop (table : String) (ct : List String) (m : Nat) :
    Option (List String) → String → Nat → List (List String) → List DbEvent
  | _, _, _, [] => []
  | some (h :: hs), isql, i, row :: rest =>
    DbEvent.insert isql i (padRow row (h :: hs).length) ::
      ((if i % m = 0 then [DbEvent.commit] else []) ++
        mainLoop table ct m (some (h :: hs)) isql (i + 1) rest)
  | _, _, i, row :: rest =>
    headerEvents table ct row ++
      mainLoop table ct m (some (format_header row)) (get_insert table (format_header row))
        (i + 1) rest

/-- The calls `main` makes before reading the CSV: CREATE DATABASE and the
database selection. -/
def preEvents (database : String) : List DbEvent :=
  [DbEvent.createDatabase ("CREATE DATABASE IF NOT EXISTS `" ++ database ++ "`;"),
   DbEvent.selectDb database]

/-- `main`: the Database Gateway trace plus the final outcome.  When
`get_col_types` raises, the run aborts right after the pre-events; when it
succeeds the loop runs and one final commit is issued. -/
def mainRun (rows : List (List String)) (table database : String) (maxInserts maxRows : Nat) :
    List DbEvent × Except String Unit :=
  match get_col_types maxRows rows with
  | Except.error e => (preEvents database, Except.error e)
  | Except.ok ct =>
    (preEvents database ++ mainLoop table ct maxInserts none "" 0 rows ++ [DbEvent.commit],
      Except.ok ())

/-- The trace component of a run. -/
def mainTrace (rows : List (List String)) (table database : String) (maxInserts maxRows : Nat) :
    List DbEvent :=
  (mainRun rows table database maxInserts maxRows).1

/-- Spec-side: every insert of a row whose index is a multiple of the
batch size is immediately followed by a commit. -/
def CommitAfterBatchInserts (m : Nat) (l : List DbEvent) : Prop :=
  ∀ k isql j v, l[k]? = some (DbEvent.insert isql j v) → j % m = 0 →
    l[k + 1]? = some DbEvent.commit

/-- Spec-side: every insert is covered by some later commit. -/
def EveryInsertCommitted (l : List DbEvent) : Prop :=
  ∀ k isql j v, l[k]? = some (DbEvent.insert isql j v) →
    ∃ k2 : Nat, k < k2 ∧ l[k2]? = some DbEvent.commit

/-- Spec-side: `x` is a most frequent element of `l` and, among the most
frequent ones, the first encountered: everything strictly before its
occurrence has a strictly smaller count. -/
def FirstModeSpec (l : List String) (x : String) : Prop :=
  ∃ l1 l2, l = l1 ++ x :: l2 ∧ (∀ y ∈ l1, l.count y < l.count x) ∧
    ∀ y ∈ l, l.count y ≤ l.count x

/-- Spec-side: the classified cells that appear at column index `j`,
in row order; rows without a cell at `j` contribute nothing. -/
def cellsAtIndex : List (List String) → Nat → List String
  | [], _ => []
  | r :: rest, j =>
    (match r[j]? with
     | some s => [get_type s]
     | none => []) ++ cellsAtIndex rest j

/-- The (raw header name, classified type) pairs one data row feeds into
the dictionary, in cell order. -/
def rowPairs (header row : List String) : List (String × String) :=
  (header.zip row).map (fun p => (p.1, get_type p.2))

/-! ### String helper lemmas -/

lemma str_data_inj {a b : String} (h : a.data = b.data) : a = b := by
  cases a; cases b; exact congrArg String.mk h

lemma str_append_data (a b : String) : (a ++ b).data = a.data ++ b.data := by
  cases a; cases b; rfl

lemma str_append_assoc (a b c : String) : a ++ b ++ c = a ++ (b ++ c) := by
  apply str_data_inj
  simp [str_append_data]

lemma str_append_empty (a : String) : a ++ "" = a := by
  apply str_data_inj
  simp [str_append_data]

/-- A backtick-wrapped name is never the bare string `id`. -/
lemma backtick_wrap_ne_id (x : String) : ("`" ++ x ++ "`") ≠ "id" := by
  intro h
  have hlen := congrArg String.length h
  rw [String.length_append, String.length_append] at hlen
  have h1 : ("`" : String).length = 1 := rfl
  have h2 : ("id" : String).length = 2 := rfl
  rw [h1, h2] at hlen
  have hx : x.length = 0 := by omega
  have hxd : x.data = [] := List.eq_nil_of_length_eq_zero hx
  have hxe : x = "" := str_data_inj hxd
  rw [hxe] at h
  exact absurd h (by decide)

/-! ### Header Normalizer lemmas -/

lemma format_header_go_ne_id : ∀ (row : List String) (counts : CountDict),
    "id" ∉ format_header_go counts row := by
  intro row
  induction row with
  | nil => intro counts; simp [format_header_go]
  | cons c rest ih =>
    intro counts h
    rw [format_header_go] at h
    rcases List.mem_cons.mp h with h1 | h2
    · exact backtick_wrap_ne_id _ h1.symm
    · exact ih _ h2

lemma format_header_ne_id (row : List String) : "id" ∉ format_header row :=
  format_header_go_ne_id row []

/-! ### Schema Generator lemmas -/

lemma foldl_clauses : ∀ (cols : List (String × String)) (init : String),
    cols.foldl
        (fun acc p => if p.1 ≠ "id" then acc ++ ("\n" ++ p.1 ++ " " ++ p.2 ++ ",") else acc)
        init
      = init ++ clausesFor cols := by
  intro cols
  induction cols with
  | nil => intro init; simp [clausesFor, str_append_empty]
  | cons p rest ih =>
    intro init
    rw [List.foldl_cons, clausesFor]
    by_cases hp : p.1 = "id"
    · rw [if_neg (by simp [hp]), if_neg (by simp [hp]), ih]
      apply str_data_inj
      simp [str_append_data]
    · rw [if_pos hp, if_pos hp, ih]
      rw [str_append_assoc]
      rfl

/-- C1 counterexample: for the CSV header `id,name` with inferred types
`[int, varchar(255)]`, the pipeline's schema (built from the normalized,
backtick-quoted header) contains a typed clause for the id column as well:
it is not the claimed single-column schema. -/
theorem c1_schema_counterexample :
    get_schema "test" (format_header ["id", "name"]) ["int", "varchar(255)"] =
      schemaPre "test" ++ colClause ("`id`", "int") ++ colClause ("`name`", "varchar(255)")
        ++ schemaSuf ∧
    get_schema "test" (format_header ["id", "name"]) ["int", "varchar(255)"] ≠
      schemaPre "test" ++ colClause ("`name`", "varchar(255)") ++ schemaSuf :=
  ⟨by decide, by decide⟩

/-- C1 (amended): `get_schema` emits, in header order, one
`column_name TYPE,` clause for every zipped column whose name is not
literally `id`, skips columns literally named `id`, and always appends the
`PRIMARY KEY (id)` tail; but the Header Normalizer wraps every name in
backticks, so no normalized column is ever literally `id` and the
exclusion never fires in the pipeline. -/
theorem c1_schema_amended :
    (∀ table header ct, get_schema table header ct =
        schemaPre table ++ clausesFor (header.zip ct) ++ schemaSuf) ∧
    (∀ (p : String × String) cols, p.1 ≠ "id" →
        clausesFor (p :: cols) = colClause p ++ clausesFor cols) ∧
    (∀ (p : String × String) cols, p.1 = "id" →
        clausesFor (p :: cols) = clausesFor cols) ∧
    (∀ row, "id" ∉ format_header row) := by
  refine ⟨?_, ?_, ?_, format_header_ne_id⟩
  · intro table header ct
    rw [get_schema, foldl_clauses]
    rfl
  · intro p cols hp
    rw [clausesFor, if_pos hp]
  · intro p cols hp
    rw [clausesFor, if_neg (by simp [hp])]
    apply str_data_inj
    simp [str_append_data]

/-- C1 amended, applied at a concrete input. -/
theorem c1_schema_amended_witness :
    get_schema "t" ["`name`"] ["varchar(255)"] =
      schemaPre "t" ++ clausesFor (["`name`"].zip ["varchar(255)"]) ++ schemaSuf ∧
    clausesFor [("`name`", "varchar(255)")] =
      colClause ("`name`", "varchar(255)") ++ clausesFor [] :=
  ⟨c1_schema_amended.1 "t" ["`name`"] ["varchar(255)"],
   c1_schema_amended.2.1 ("`name`", "varchar(255)") [] (by decide)⟩

/-- C2: the Header Normalizer fails to de-duplicate when a base name
collides with a suffixed name: `['a', 'a', 'a2']` normalizes to
`['`a`', '`a2`', '`a2`']`, which is not pairwise distinct, contradicting
the claim and the function's own docstring. -/
theorem c2_format_header_failing :
    format_header ["a", "a", "a2"] = ["`a`", "`a2`", "`a2`"] ∧
    ¬ (format_header ["a", "a", "a2"]).Nodup :=
  ⟨rfl, by decide⟩

/-! ### Load Pipeline lemmas -/

lemma padRow_eq_aux (hlen : Nat) :
    ∀ (n : Nat) (row : List String), hlen - row.length = n →
      padRow row hlen = row ++ List.replicate (hlen - row.length) "" := by
  intro n
  induction n with
  | zero =>
    intro row hn
    rw [padRow, dif_neg (by omega), hn]
    simp
  | succ n ih =>
    intro row hn
    have hlt : row.length < hlen := by omega
    rw [padRow, dif_pos hlt]
    have hlen2 : hlen - (row ++ [""]).length = n := by
      rw [List.length_append]; simp; omega
    rw [ih (row ++ [""]) hlen2, hlen2, hn]
    rw [List.append_assoc]
    have : ("" : String) :: List.replicate n "" = List.replicate (n + 1) "" := by
      rw [List.replicate_succ]
    simp [this]

lemma padRow_eq (row : List String) (hlen : Nat) :
    padRow row hlen = row ++ List.replicate (hlen - row.length) "" :=
  padRow_eq_aux hlen (hlen - row.length) row rfl

lemma mainLoop_nil (table : String) (ct : List String) (m : Nat)
    (hdr : Option (List String)) (isql : String) (i : Nat) :
    mainLoop table ct m hdr isql i [] = [] := by
  cases hdr with
  | none => rfl
  | some h => cases h <;> rfl

lemma mainLoop_cons_some (table : String) (ct : List String) (m : Nat)
    (h : String) (hs : List String) (isql : String) (i : Nat)
    (row : List String) (rest : List (List String)) :
    mainLoop table ct m (some (h :: hs)) isql i (row :: rest) =
      DbEvent.insert isql i (padRow row (h :: hs).length) ::
        ((if i % m = 0 then [DbEvent.commit] else []) ++
          mainLoop table ct m (some (h :: hs)) isql (i + 1) rest) := rfl

lemma mainLoop_cons_none (table : String) (ct : List String) (m : Nat)
    (isql : String) (i : Nat) (row : List String) (rest : List (List String)) :
    mainLoop table ct m none isql i (row :: rest) =
      headerEvents table ct row ++
        mainLoop table ct m (some (format_header row)) (get_insert table (format_header row))
          (i + 1) rest := rfl

lemma mainLoop_cons_someNil (table : String) (ct : List String) (m : Nat)
    (isql : String) (i : Nat) (row : List String) (rest : List (List String)) :
    mainLoop table ct m (some []) isql i (row :: rest) =
      headerEvents table ct row ++
        mainLoop table ct m (some (format_header row)) (get_insert table (format_header row))
          (i + 1) rest := rfl

/-- C7: a row shorter than the header is right-padded with empty strings
to exactly the header length; a row at least as long as the header is
bound unchanged (never truncated); and in the streaming state the loop
binds exactly the padded row, positionally, to the insert. -/
theorem c7_row_padding (row header : List String) :
    (row.length < header.length →
      padRow row header.length = row ++ List.replicate (header.length - row.length) "" ∧
      (padRow row header.length).length = header.length) ∧
    (header.length ≤ row.length → padRow row header.length = row) ∧
    (∀ table ct m isql i rest, header ≠ [] →
      mainLoop table ct m (some header) isql i (row :: rest) =
        DbEvent.insert isql i (padRow row header.length) ::
          ((if i % m = 0 then [DbEvent.commit] else []) ++
            mainLoop table ct m (some header) isql (i + 1) rest)) := by
  refine ⟨?_, ?_, ?_⟩
  · intro hlt
    refine ⟨padRow_eq row header.length, ?_⟩
    rw [padRow_eq, List.length_append, List.length_replicate]
    omega
  · intro hle
    rw [padRow_eq]
    have : header.length - row.length = 0 := by omega
    simp [this]
  · intro table ct m isql i rest hne
    cases header with
    | nil => exact absurd rfl hne
    | cons h hs => exact mainLoop_cons_some table ct m h hs isql i row rest

/-- C7, applied at a concrete short row and two-column header. -/
theorem c7_row_padding_witness :
    padRow ["1"] (["`a`", "`b`"] : List String).length =
      ["1"] ++ List.replicate ((["`a`", "`b`"] : List String).length -
        (["1"] : List String).length) "" :=
  ((c7_row_padding ["1"] ["`a`", "`b`"]).1 (by decide)).1

/-! ### Commit coverage lemmas -/

lemma cab_nil (m : Nat) : CommitAfterBatchInserts m [] := by
  intro k isql j v hk
  simp at hk

lemma cab_cons (m : Nat) (e : DbEvent) (l : List DbEvent)
    (h1 : CommitAfterBatchInserts m l)
    (h2 : ∀ isql j v, e = DbEvent.insert isql j v → j % m = 0 → l[0]? = some DbEvent.commit) :
    CommitAfterBatchInserts m (e :: l) := by
  intro k isql j v hk hj
  cases k with
  | zero =>
    rw [List.getElem?_cons_zero] at hk
    have he : e = DbEvent.insert isql j v := Option.some.inj hk
    rw [List.getElem?_cons_succ]
    exact h2 isql j v he hj
  | succ n =>
    rw [List.getElem?_cons_succ] at hk
    rw [List.getElem?_cons_succ]
    exact h1 n isql j v hk hj

lemma cab_singleton_commit (m : Nat) : CommitAfterBatchInserts m [DbEvent.commit] := by
  apply cab_cons m DbEvent.commit [] (cab_nil m)
  intro isql j v he
  exact absurd he (by simp)

lemma mainLoop_cab (table : String) (ct : List String) (m : Nat) :
    ∀ (rows : List (List String)) (hdr : Option (List String)) (isql : String) (i : Nat)
      (suf : List DbEvent),
      CommitAfterBatchInserts m suf →
      CommitAfterBatchInserts m (mainLoop table ct m hdr isql i rows ++ suf) := by
  intro rows
  induction rows with
  | nil =>
    intro hdr isql i suf hs
    rw [mainLoop_nil, List.nil_append]
    exact hs
  | cons row rest ih =>
    intro hdr isql i suf hs
    have hheader : ∀ (hdr2 : Option (List String)) isql2,
        mainLoop table ct m hdr2 isql2 i (row :: rest) =
          headerEvents table ct row ++
            mainLoop table ct m (some (format_header row))
              (get_insert table (format_header row)) (i + 1) rest →
        CommitAfterBatchInserts m (mainLoop table ct m hdr2 isql2 i (row :: rest) ++ suf) := by
      intro hdr2 isql2 heq
      rw [heq]
      simp only [headerEvents, List.cons_append, List.nil_append, List.append_assoc]
      refine cab_cons m _ _ (cab_cons m _ _ (cab_cons m _ _ ?_ ?_) ?_) ?_
      · exact ih (some (format_header row)) (get_insert table (format_header row)) (i + 1) suf hs
      all_goals intro isql3 j v he; exact absurd he (by simp)
    cases hdr with
    | none => exact hheader none isql (mainLoop_cons_none table ct m isql i row rest)
    | some h =>
      cases h with
      | nil => exact hheader (some []) isql (mainLoop_cons_someNil table ct m isql i row rest)
      | cons h hs2 =>
        rw [mainLoop_cons_some, List.cons_append, List.append_assoc]
        by_cases him : i % m = 0
        · rw [if_pos him, List.singleton_append]
          refine cab_cons m _ _ (cab_cons m _ _ ?_ ?_) ?_
          · exact ih (some (h :: hs2)) isql (i + 1) suf hs
          · intro isql3 j v he; exact absurd he (by simp)
          · intro isql3 j v he hj
            rw [List.getElem?_cons_zero]
        · rw [if_neg him, List.nil_append]
          apply cab_cons
          · exact ih (some (h :: hs2)) isql (i + 1) suf hs
          · intro isql3 j v he hj
            have h2 : i = j := by injection he with e1 e2 e3
            rw [← h2] at hj
            exact absurd hj him

lemma mainTrace_ok_eq (rows : List (List String)) (table database : String)
    (maxInserts maxRows : Nat) (ct : List String)
    (hok : get_col_types maxRows rows = Except.ok ct) :
    mainTrace rows table database maxInserts maxRows =
      preEvents database ++ mainLoop table ct maxInserts none "" 0 rows ++ [DbEvent.commit] := by
  rw [mainTrace, mainRun, hok]

/-- C8: for any run whose type-analysis pass succeeds, every insert of a
row whose physical index is a multiple of 10000 is immediately followed by
a commit, the trace ends with the single final commit issued after the
stream is exhausted, and hence every inserted row is covered by a later
commit. -/
theorem c8_commit_coverage (rows : List (List String)) (table database : String)
    (ct : List String) (hok : get_col_types 1000 rows = Except.ok ct) :
    CommitAfterBatchInserts 10000 (mainTrace rows table database 10000 1000) ∧
    (mainTrace rows table database 10000 1000).getLast? = some DbEvent.commit ∧
    EveryInsertCommitted (mainTrace rows table database 10000 1000) := by
  have htr := mainTrace_ok_eq rows table database 10000 1000 ct hok
  refine ⟨?_, ?_, ?_⟩
  · rw [htr]
    simp only [preEvents, List.cons_append, List.nil_append, List.append_assoc]
    refine cab_cons 10000 _ _ (cab_cons 10000 _ _ ?_ ?_) ?_
    · exact mainLoop_cab table ct 10000 rows none "" 0 [DbEvent.commit]
        (cab_singleton_commit 10000)
    all_goals intro isql j v he; exact absurd he (by simp)
  · rw [htr, List.getLast?_concat]
  · intro k isql j v hk
    rw [htr] at hk ⊢
    set A := preEvents database ++ mainLoop table ct 10000 none "" 0 rows with hA
    have hklt : k < (A ++ [DbEvent.commit]).length := by
      rcases List.getElem?_eq_some.mp hk with ⟨hlt, _⟩
      exact hlt
    rw [List.length_append] at hklt
    have hkA : k < A.length := by
      rcases Nat.lt_or_ge k A.length with h | h
      · exact h
      · exfalso
        have hkeq : k = A.length := by simp at hklt; omega
        rw [List.getElem?_append_right (by omega)] at hk
        rw [hkeq] at hk
        simp at hk
    refine ⟨A.length, hkA, ?_⟩
    rw [List.getElem?_append_right (Nat.le_refl A.length)]
    simp

/-- C8, applied at a concrete two-row CSV. -/
theorem c8_commit_coverage_witness :
    (mainTrace [["a"], ["1"]] "t" "d" 10000 1000).getLast? = some DbEvent.commit :=
  (c8_commit_coverage [["a"], ["1"]] "t" "d" ["int"] rfl).2.1

/-! ### Column Type Aggregator lemmas -/

lemma dictAppList_cons (d : TypesDict) (p : String × String) (ps : List (String × String)) :
    dictAppList d (p :: ps) = dictAppList (dictApp d p.1 p.2) ps := rfl

lemma dictGet_dictApp : ∀ (d : TypesDict) (k t k2 : String),
    dictGet (dictApp d k t) k2 = if k2 = k then dictGet d k ++ [t] else dictGet d k2 := by
  intro d
  induction d with
  | nil =>
    intro k t k2
    by_cases h : k2 = k
    · subst h; simp [dictApp, dictGet]
    · simp [dictApp, dictGet, h, Ne.symm h]
  | cons hd rest ih =>
    intro k t k2
    obtain ⟨k3, ts⟩ := hd
    by_cases h3 : k3 = k
    · subst h3
      by_cases h : k2 = k3
      · subst h; simp [dictApp, dictGet]
      · simp [dictApp, dictGet, h, Ne.symm h]
    · by_cases h : k2 = k3
      · subst h
        simp [dictApp, dictGet, h3, Ne.symm h3]
      · simp [dictApp, dictGet, h3, h, Ne.symm h, ih]

lemma dictGet_dictAppList : ∀ (ps : List (String × String)) (d : TypesDict) (k : String),
    dictGet (dictAppList d ps) k =
      dictGet d k ++ (ps.filter (fun p => p.1 == k)).map Prod.snd := by
  intro ps
  induction ps with
  | nil => intro d k; simp [dictAppList]
  | cons p rest ih =>
    intro d k
    rw [dictAppList_cons, ih, dictGet_dictApp, List.filter_cons]
    by_cases h : k = p.1
    · rw [if_pos h]
      have hb : (p.1 == k) = true := by rw [beq_iff_eq]; exact h.symm
      simp [hb, h]
    · rw [if_neg h]
      have hb : (p.1 == k) = false := by
        rw [Bool.eq_false_iff]
        intro hh
        exact h (beq_iff_eq.mp hh).symm
      simp [hb]

lemma zip_filter_nodup : ∀ (hd r : List String), hd.Nodup → ∀ (j : Nat) (hj : j < hd.length),
    (hd.zip r).filter (fun p => p.1 == hd[j]) =
      (r[j]?.map (fun s => (hd[j], s))).toList := by
  intro hd
  induction hd with
  | nil => intro r hnd j hj; simp at hj
  | cons h ht ih =>
    intro r hnd j hj
    rcases List.nodup_cons.mp hnd with ⟨hnotmem, hndt⟩
    cases r with
    | nil => simp [List.zip_nil_right]
    | cons s rt =>
      cases j with
      | zero =>
        simp only [List.zip_cons_cons, List.filter_cons, List.getElem_cons_zero,
          List.getElem?_cons_zero, Option.map_some, Option.toList_some]
        have hself : (h == h) = true := by simp
        rw [if_pos hself]
        have hrest : (ht.zip rt).filter (fun p => p.1 == h) = [] := by
          rw [List.filter_eq_nil_iff]
          intro p hp hb
          exact hnotmem (beq_iff_eq.mp hb ▸ (List.of_mem_zip hp).1)
        rw [hrest]
        simp
      | succ n =>
        have hn : n < ht.length := by simpa using hj
        simp only [List.zip_cons_cons, List.filter_cons, List.getElem_cons_succ,
          List.getElem?_cons_succ]
        have hne : (h == ht[n]) = false := by
          rw [Bool.eq_false_iff]
          intro hh
          exact hnotmem (beq_iff_eq.mp hh ▸ List.getElem_mem hn)
        rw [if_neg (by simp [hne])]
        exact ih rt hndt n hn

lemma rowPairs_filter_nodup (hd : List String) (hnd : hd.Nodup) (r : List String)
    (j : Nat) (hj : j < hd.length) :
    ((rowPairs hd r).filter (fun p => p.1 == hd[j])).map Prod.snd =
      (r[j]?.map get_type).toList := by
  rw [rowPairs, List.filter_map]
  have hpred : ((fun p : String × String => p.1 == hd[j]) ∘
      (fun p : String × String => (p.1, get_type p.2))) =
      (fun p : String × String => p.1 == hd[j]) := rfl
  rw [hpred, zip_filter_nodup hd r hnd j hj]
  cases hr : r[j]? <;> simp

lemma classifyCells_ok (header : List String) :
    ∀ (row : List String) (d : TypesDict) (i : Nat),
      i + row.length ≤ header.length →
      classifyCells header d i row =
        Except.ok (dictAppList d (rowPairs (header.drop i) row)) := by
  intro row
  induction row with
  | nil => intro d i h; simp [classifyCells, rowPairs, dictAppList]
  | cons s rest ih =>
    intro d i h
    have hi : i < header.length := by simp at h; omega
    simp only [classifyCells, List.getElem?_eq_getElem hi]
    rw [List.drop_eq_getElem_cons hi]
    simp only [rowPairs, List.zip_cons_cons, List.map_cons]
    rw [dictAppList_cons]
    have h2 : (i + 1) + rest.length ≤ header.length := by simp at h; omega
    exact ih (dictApp d header[i] (get_type s)) (i + 1) h2

lemma classifyCells_err (header : List String) :
    ∀ (row : List String) (d : TypesDict) (i : Nat),
      header.length < i + row.length → row ≠ [] →
      classifyCells header d i row = Except.error "IndexError: list index out of range" := by
  intro row
  induction row with
  | nil => intro d i h hne; exact absurd rfl hne
  | cons s rest ih =>
    intro d i h hne
    by_cases hi : i < header.length
    · have hrest : rest ≠ [] := by
        intro hr
        rw [hr] at h
        simp at h
        omega
      simp only [classifyCells, List.getElem?_eq_getElem hi]
      apply ih
      · simp at h; omega
      · exact hrest
    · have hnone : header[i]? = none := List.getElem?_eq_none (by omega)
      simp only [classifyCells, hnone]

lemma foldClassify_cons_ok (header : List String) (d : TypesDict) (row : List String)
    (rest : List (List String)) (d2 : TypesDict)
    (h : classifyCells header d 0 row = Except.ok d2) :
    foldClassify header d (row :: rest) = foldClassify header d2 rest := by
  rw [foldClassify, h]

lemma foldClassify_cons_err (header : List String) (d : TypesDict) (row : List String)
    (rest : List (List String)) (e : String)
    (h : classifyCells header d 0 row = Except.error e) :
    foldClassify header d (row :: rest) = Except.error e := by
  rw [foldClassify, h]

lemma foldClassify_ok (header : List String) :
    ∀ (rows : List (List String)) (d : TypesDict),
      (∀ r ∈ rows, r.length ≤ header.length) →
      foldClassify header d rows =
        Except.ok (rows.foldl (fun d r => dictAppList d (rowPairs header r)) d) := by
  intro rows
  induction rows with
  | nil => intro d h; rfl
  | cons row rest ih =>
    intro d h
    have h0 : row.length ≤ header.length := h row (List.mem_cons_self row rest)
    have hc := classifyCells_ok header row d 0 (by omega)
    rw [List.drop_zero] at hc
    rw [foldClassify_cons_ok header d row rest _ hc, List.foldl_cons]
    exact ih _ (fun r hr => h r (List.mem_cons_of_mem row hr))

lemma foldClassify_err (header : List String) :
    ∀ (rows : List (List String)) (d : TypesDict),
      (∃ r ∈ rows, header.length < r.length) →
      ∃ e, foldClassify header d rows = Except.error e := by
  intro rows
  induction rows with
  | nil =>
    intro d h
    rcases h with ⟨r, hr, _⟩
    simp at hr
  | cons row rest ih =>
    intro d h
    by_cases h0 : header.length < row.length
    · have hne : row ≠ [] := by
        intro hx
        rw [hx] at h0
        simp at h0
      have hc := classifyCells_err header row d 0 (by omega) hne
      exact ⟨_, foldClassify_cons_err header d row rest _ hc⟩
    · push_neg at h0
      have hc := classifyCells_ok header row d 0 (by omega)
      rw [List.drop_zero] at hc
      rw [foldClassify_cons_ok header d row rest _ hc]
      apply ih
      rcases h with ⟨r, hr, hlen⟩
      rcases List.mem_cons.mp hr with heq | hmem
      · exfalso; rw [heq] at hlen; omega
      · exact ⟨r, hmem, hlen⟩

lemma colTypesOf_cons (header : List String) (dataRows : List (List String)) :
    colTypesOf (header :: dataRows) =
      (foldClassify header emptyDict dataRows).map
        (fun d => header.map (fun col => most_common (dictGet d col))) := rfl

lemma dictGet_fold_idx (header : List String) (hnd : header.Nodup) (j : Nat)
    (hj : j < header.length) :
    ∀ (rows : List (List String)) (d : TypesDict),
      dictGet (rows.foldl (fun d r => dictAppList d (rowPairs header r)) d) header[j] =
        dictGet d header[j] ++ cellsAtIndex rows j := by
  intro rows
  induction rows with
  | nil => intro d; simp [cellsAtIndex]
  | cons r rest ih =>
    intro d
    rw [List.foldl_cons, ih, dictGet_dictAppList,
      rowPairs_filter_nodup header hnd r j hj, cellsAtIndex, List.append_assoc]
    congr 1
    cases hr : r[j]? <;> simp [hr]

/-- C3 counterexample: with the duplicate raw header `a,a` and the data
row `1,1.5`, both cells land in the single list keyed by the shared name
`a`, so the code infers `[int, int]`, while per-index aggregation (as the
claim states) would give `[int, double]`. -/
theorem c3_coltypes_counterexample :
    get_col_types 1000 [["a", "a"], ["1", "1.5"]] = Except.ok ["int", "int"] ∧
    (List.range 2).map (fun j => most_common (cellsAtIndex [["1", "1.5"]] j)) =
      ["int", "double"] ∧
    (["int", "int"] : List String) ≠ ["int", "double"] :=
  ⟨rfl, rfl, by decide⟩

/-- C3 (amended): the Aggregator returns one type per header column, in
header order, but observed types are keyed by the RAW header name, so
columns sharing a raw name share one observed-type list; when the raw
header names are pairwise distinct (and no sampled row is longer than the
header), the type of the column at index `j` is computed from exactly the
classified cells at index `j`, as the claim states. -/
theorem c3_coltypes_amended (maxRows : Nat) (rows : List (List String))
    (header : List String) (dataRows : List (List String))
    (h1 : rows.take (maxRows + 1) = header :: dataRows)
    (hnd : header.Nodup)
    (hfit : ∀ r ∈ dataRows, r.length ≤ header.length) :
    get_col_types maxRows rows =
      Except.ok ((List.range header.length).map
        (fun j => most_common (cellsAtIndex dataRows j))) ∧
    ∀ ts, get_col_types maxRows rows = Except.ok ts → ts.length = header.length := by
  have hfold := foldClassify_ok header dataRows emptyDict hfit
  have hmain : get_col_types maxRows rows =
      Except.ok (header.map (fun col => most_common
        (dictGet (dataRows.foldl (fun d r => dictAppList d (rowPairs header r)) emptyDict)
          col))) := by
    rw [get_col_types, h1, colTypesOf_cons, hfold]
    rfl
  constructor
  · rw [hmain]
    congr 1
    apply List.ext_getElem
    · simp
    · intro n h1n h2n
      simp only [List.getElem_map, List.getElem_range]
      have hn : n < header.length := by simpa using h1n
      rw [dictGet_fold_idx header hnd n hn dataRows emptyDict]
      rfl
  · intro ts hts
    rw [hmain] at hts
    injection hts with h2
    rw [← h2]
    simp

/-- C3 amended, applied at a concrete CSV with distinct header names. -/
theorem c3_coltypes_amended_witness :
    get_col_types 1000 [["a", "b"], ["1", "2"]] =
      Except.ok ((List.range (["a", "b"] : List String).length).map
        (fun j => most_common (cellsAtIndex [["1", "2"]] j))) ∧
    ∀ ts, get_col_types 1000 [["a", "b"], ["1", "2"]] = Except.ok ts →
      ts.length = (["a", "b"] : List String).length :=
  c3_coltypes_amended 1000 [["a", "b"], ["1", "2"]] ["a", "b"] [["1", "2"]] rfl
    (by decide) (by decide)

/-- C9: a data row longer than the header inside the sample window makes
the Aggregator raise (the IndexError of `header[col_i]`); the run aborts
with only the pre-events issued — no table is dropped or created and no
row is inserted. -/
theorem c9_long_row_error (maxRows : Nat) (rows : List (List String))
    (header : List String) (dataRows : List (List String))
    (table database : String) (maxInserts : Nat)
    (h1 : rows.take (maxRows + 1) = header :: dataRows)
    (h2 : ∃ r ∈ dataRows, header.length < r.length) :
    ∃ e, get_col_types maxRows rows = Except.error e ∧
      mainRun rows table database maxInserts maxRows = (preEvents database, Except.error e) := by
  obtain ⟨e, he⟩ := foldClassify_err header dataRows emptyDict h2
  have hg : get_col_types maxRows rows = Except.error e := by
    rw [get_col_types, h1, colTypesOf_cons, he]
    rfl
  exact ⟨e, hg, by rw [mainRun, hg]⟩

/-- C9, applied to a one-column header with a two-field data row. -/
theorem c9_long_row_error_witness :
    ∃ e, get_col_types 1000 [["a"], ["1", "2"]] = Except.error e ∧
      mainRun [["a"], ["1", "2"]] "t" "d" 10000 1000 = (preEvents "d", Except.error e) :=
  c9_long_row_error 1000 [["a"], ["1", "2"]] ["a"] [["1", "2"]] "t" "d" 10000 rfl
    ⟨["1", "2"], by decide, by decide⟩

/-- C10: on a CSV with zero records the sampling loop never assigns
`header`, so the Aggregator raises (NameError) and the run aborts with
only the pre-events issued — no table operation happens. -/
theorem c10_empty_file_error (maxRows maxInserts : Nat) (table database : String) :
    get_col_types maxRows [] = Except.error "NameError: header is not defined" ∧
    mainRun [] table database maxInserts maxRows =
      (preEvents database, Except.error "NameError: header is not defined") := by
  have hg : get_col_types maxRows [] =
      Except.error "NameError: header is not defined" := by
    rw [get_col_types, List.take_nil]
    rfl
  exact ⟨hg, by rw [mainRun, hg]⟩

/-! ### most_common lemmas -/

lemma maxByCount_invariant (l : List String) :
    ∀ (rest p : List String) (best : String),
      l = p ++ rest →
      (∃ p1 p2, p = p1 ++ best :: p2 ∧ ∀ y ∈ p1, l.count y < l.count best) →
      (∀ y ∈ p, l.count y ≤ l.count best) →
      FirstModeSpec l
        (rest.foldl (fun b y => if l.count b < l.count y then y else b) best) := by
  intro rest
  induction rest with
  | nil =>
    intro p best hl hdec hbound
    rcases hdec with ⟨p1, p2, hp, hstrict⟩
    rw [List.append_nil] at hl
    subst hl
    exact ⟨p1, p2, hp, hstrict, hbound⟩
  | cons y rest2 ih =>
    intro p best hl hdec hbound
    rw [List.foldl_cons]
    have hl2 : l = (p ++ [y]) ++ rest2 := by
      rw [hl, List.append_assoc, List.singleton_append]
    by_cases hc : l.count best < l.count y
    · rw [if_pos hc]
      apply ih (p ++ [y]) y hl2
      · refine ⟨p, [], rfl, ?_⟩
        intro z hz
        exact Nat.lt_of_le_of_lt (hbound z hz) hc
      · intro z hz
        rcases List.mem_append.mp hz with hz1 | hz2
        · exact Nat.le_of_lt (Nat.lt_of_le_of_lt (hbound z hz1) hc)
        · rw [List.mem_singleton.mp hz2]
    · rw [if_neg hc]
      push_neg at hc
      apply ih (p ++ [y]) best hl2
      · rcases hdec with ⟨p1, p2, hp, hstrict⟩
        refine ⟨p1, p2 ++ [y], ?_, hstrict⟩
        rw [hp]
        simp
      · intro z hz
        rcases List.mem_append.mp hz with hz1 | hz2
        · exact hbound z hz1
        · rw [List.mem_singleton.mp hz2]
          exact hc

lemma maxByCount_firstMode (l : List String) (h : l ≠ []) :
    FirstModeSpec l (maxByCount l) := by
  cases l with
  | nil => exact absurd rfl h
  | cons x xs =>
    have := maxByCount_invariant (x :: xs) xs [x] x (by simp) ⟨[], [], rfl, by simp⟩
      (by intro y hy; rw [List.mem_singleton.mp hy])
    exact this

/-- C4: on a non-empty observed-type list, `text` anywhere wins, else
`bigint` anywhere wins, else the result is the most frequent element with
ties broken in favor of the element encountered first; the empty list
reduces to `varchar(255)`; and the three example lists reduce as the
claim states. -/
theorem c4_most_common_policy :
    (∀ l : List String, "text" ∈ l → most_common l = "text") ∧
    (∀ l : List String, "text" ∉ l → "bigint" ∈ l → most_common l = "bigint") ∧
    (∀ l : List String, l ≠ [] → "text" ∉ l → "bigint" ∉ l →
      most_common l = maxByCount l ∧ FirstModeSpec l (most_common l)) ∧
    most_common [] = "varchar(255)" ∧
    most_common ["int", "int", "text"] = "text" ∧
    most_common ["int", "int", "bigint"] = "bigint" ∧
    most_common ["int", "int", "double"] = "int" := by
  have hval : ∀ l : List String, l ≠ [] → "text" ∉ l → "bigint" ∉ l →
      most_common l = maxByCount l := by
    intro l hne ht hb
    cases l with
    | nil => exact absurd rfl hne
    | cons x xs => rw [most_common, if_neg ht, if_neg hb]
  refine ⟨?_, ?_, ?_, rfl, rfl, rfl, rfl⟩
  · intro l hmem
    cases l with
    | nil => simp at hmem
    | cons x xs => rw [most_common, if_pos hmem]
  · intro l hnot hmem
    cases l with
    | nil => simp at hmem
    | cons x xs => rw [most_common, if_neg hnot, if_pos hmem]
  · intro l hne ht hb
    refine ⟨hval l hne ht hb, ?_⟩
    rw [hval l hne ht hb]
    exact maxByCount_firstMode l hne

/-- C4, applied at concrete lists exercising the override and the mode. -/
theorem c4_most_common_policy_witness :
    most_common ["double", "text"] = "text" ∧
    FirstModeSpec ["int", "double"] (most_common ["int", "double"]) :=
  ⟨c4_most_common_policy.1 ["double", "text"] (by decide),
   (c4_most_common_policy.2.2.1 ["int", "double"] (by decide) (by decide) (by decide)).2⟩

/-! ### Type Classifier theorems -/

/-- C5: a string accepted by the integer parser is classified `int` when
the absolute value is at most 2147483647 and `bigint` when it exceeds it,
and the integer check pre-empts every later check — in particular such a
string is never classified `double`. -/
theorem c5_int_classification (s : String) (v : Int) (h : pyInt s = some v) :
    get_type s = (if 2147483647 < v.natAbs then "bigint" else "int") ∧
    get_type s ≠ "double" ∧ get_type s ≠ "datetime" ∧ get_type s ≠ "date" ∧
    get_type s ≠ "time" ∧ get_type s ≠ "text" ∧ get_type s ≠ "varchar(255)" := by
  have hg : get_type s = (if 2147483647 < v.natAbs then "bigint" else "int") := by
    rw [get_type, h]
  refine ⟨hg, ?_, ?_, ?_, ?_, ?_, ?_⟩ <;> rw [hg] <;> split_ifs <;> decide

/-- C5, applied at a small and an overflowing integer string. -/
theorem c5_int_classification_witness :
    get_type "12" = "int" ∧ get_type "9999999999" = "bigint" := by
  have h1 := (c5_int_classification "12" 12 rfl).1
  have h2 := (c5_int_classification "9999999999" 9999999999 rfl).1
  rw [h1, h2]
  exact ⟨by decide, by decide⟩

/-- C6: the classifier is total — every string maps to one of the eight
InferredType values — and the empty string maps to `varchar(255)`. -/
theorem c6_classifier_total :
    (∀ s : String, get_type s ∈
      ["int", "bigint", "double", "datetime", "date", "time", "text", "varchar(255)"]) ∧
    get_type "" = "varchar(255)" := by
  refine ⟨?_, rfl⟩
  intro s
  cases h : pyInt s with
  | some v =>
    have hg : get_type s = (if 2147483647 < v.natAbs then "bigint" else "int") := by
      rw [get_type, h]
    rw [hg]
    split_ifs <;> decide
  | none =>
    have hg : get_type s =
        (if pyFloat s then "double"
         else if matchFmtDatetime s.data then "datetime"
         else if matchFmtDatetimeFrac s.data then "datetime"
         else if matchFmtDate s.data then "date"
         else if matchFmtTime s.data then "time"
         else if 255 < s.length then "text"
         else "varchar(255)") := by
      rw [get_type, h]
    rw [hg]
    split_ifs <;> decide

end Csv2Mysql
